import Mathlib

/-!
Verification of the live metadata discovery subsystem of the Radio-Times-Web
repository (`src/utils/metadataFetcher.js`).

JavaScript strings are sequences of UTF-16 code units; we model them as
`List Nat` (each element a code unit).  All string literals that occur in the
code under verification are ASCII, so `String.data.map Char.toNat` translates
Lean literals faithfully.  The network is modelled as an environment function
from request URL to an optional HTTP response (`none` = the fetch promise
rejected, i.e. a network error); each probe records the URL it requests so
that "no network call is issued" is a statement about the recorded trace.
-/

/-- A JavaScript string, as a list of UTF-16 code units. -/
abbrev JStr := List Nat

/-- Translate an ASCII Lean string literal into the code-unit model. -/
def strJ (s : String) : JStr := s.data.map Char.toNat

/-- ASCII and C1 control characters, the class `[\x00-\x1F\x7F-\x9F]` of the
sanitizer's second `replace` in `cleanMetadata`. -/
def isCtl (c : Nat) : Bool := c ≤ 31 || (127 ≤ c && c ≤ 159)

/-- The JavaScript `String.prototype.trim` whitespace set (ECMAScript
WhiteSpace ∪ LineTerminator): TAB, LF, VT, FF, CR, SP, NBSP, and the Unicode
space separators plus ZWNBSP. -/
def isWS (c : Nat) : Bool :=
  c = 9 || c = 10 || c = 11 || c = 12 || c = 13 || c = 32 || c = 160 ||
  c = 0x1680 || (0x2000 ≤ c && c ≤ 0x200A) || c = 0x2028 || c = 0x2029 ||
  c = 0x202F || c = 0x205F || c = 0x3000 || c = 0xFEFF

/-- ECMAScript line terminators (LF, CR, LS, PS); `.` in a JavaScript regex
without the `s` flag matches any code unit except these. -/
def isLineTerm (c : Nat) : Bool := c = 10 || c = 13 || c = 0x2028 || c = 0x2029

/-- State machine for `text.replace(/<[^>]*>?/gm, "")` of `cleanMetadata`:
every `<` (code 60) opens a match that greedily consumes non-`>` code units
and then one `>` (code 62) if present, and each match is replaced by the
empty string.  The Boolean state is "currently inside a match". -/
def stripTagsAux : JStr → Bool → JStr
  | [], _ => []
  | c :: rest, false =>
      if c = 60 then stripTagsAux rest true else c :: stripTagsAux rest false
  | c :: rest, true =>
      if c = 62 then stripTagsAux rest false else stripTagsAux rest true

/-- Model of `text.replace(/<[^>]*>?/gm, "")`. -/
def stripTags (l : JStr) : JStr := stripTagsAux l false

/-- Model of `.replace(/[\x00-\x1F\x7F-\x9F]/g, "")`. -/
def stripCtl (l : JStr) : JStr := l.filter (fun c => !isCtl c)

/-- Remove trailing JavaScript whitespace. -/
def trimEnd (l : JStr) : JStr := (l.reverse.dropWhile isWS).reverse

/-- Model of `String.prototype.trim`: drop leading and trailing whitespace. -/
def jsTrim (l : JStr) : JStr := trimEnd (l.dropWhile isWS)

/-- Model of `cleanMetadata` (metadataFetcher.js lines 13-20): empty (falsy) input
yields the empty string; otherwise strip tag-like substrings, strip
ASCII/C1 control characters, trim, and truncate with `substring(0, 100)`. -/
def cleanMetadata (t : JStr) : JStr :=
  if t = [] then []
  else (jsTrim (stripCtl (stripTags t))).take 100

/-- The sanitizer `cleanMetadata` lifted to an optional argument: `null`/`undefined` input
is falsy, so it also yields the empty string. -/
def cleanMetadataO : Option JStr → JStr
  | none => []
  | some t => cleanMetadata t

/-- Does `pat` occur as a prefix of `l`? (`String.prototype.startsWith`-style
helper used to model substring search.) -/
def startsW : JStr → JStr → Bool
  | [], _ => true
  | _ :: _, [] => false
  | p :: ps, c :: cs => p = c && startsW ps cs

/-- Does `pat` occur as a substring of `l`? Models
`String.prototype.includes`. -/
def hasSub (pat : JStr) : JStr → Bool
  | [] => pat.isEmpty
  | l@(_ :: rest) => startsW pat l || hasSub pat rest

/-- ASCII lower-casing of one code unit; models `toLowerCase` on the ASCII
strings this code applies it to. -/
def asciiLow (c : Nat) : Nat := if 65 ≤ c ∧ c ≤ 90 then c + 32 else c

/-- Model of `String.prototype.toLowerCase`, restricted to the ASCII mapping (the
pathnames and patterns this code lower-cases are ASCII). -/
def toLowerA (l : JStr) : JStr := l.map asciiLow

/-- Model of `streamUrl.split('?')[0]`: everything before the first `?` (code 63). -/
def beforeQuery (l : JStr) : JStr := l.takeWhile (fun c => c ≠ 63)

/-- Model of `.replace(/\/$/, "")`: remove a single trailing `/` (code 47). -/
def dropTrailSlash (l : JStr) : JStr :=
  match l.reverse with
  | 47 :: rest => rest.reverse
  | _ => l

/-- The components of a parsed URL that `getBaseUrl` reads: `url.protocol`
(with the trailing colon), `url.host`, and `url.pathname`. -/
structure URLparts where
  protocol : JStr
  host : JStr
  pathname : JStr
deriving DecidableEq

/-- Model of `new URL(streamUrl)` for plain absolute `http://` / `https://`
URLs with a lower-case scheme, no userinfo and no percent-encoding or
dot-segment normalisation needs (all URLs this development evaluates on are
of that shape): the host runs to the first `/`, `?` or `#`; the pathname
runs from there to the first `?` or `#` and defaults to `/`; a string not
starting with either scheme fails to parse (`new URL` throws). -/
def parseURL (u : JStr) : Option URLparts :=
  let parseRest (proto : JStr) (rest : JStr) : Option URLparts :=
    let host := rest.takeWhile (fun c => c ≠ 47 && c ≠ 63 && c ≠ 35)
    if host = [] then none
    else
      let path := (rest.drop host.length).takeWhile (fun c => c ≠ 63 && c ≠ 35)
      some ⟨proto, host, if path = [] then [47] else path⟩
  if startsW (strJ ("http://")) u then parseRest (strJ ("http:")) (u.drop 7)
  else if startsW (strJ ("https://")) u then parseRest (strJ ("https:")) (u.drop 8)
  else none

/-- Model of `getBaseUrl` (metadataFetcher.js lines 107-128): on parse success, return
`protocol//host` when the pathname is `/`, `/;` or contains "stream"
case-insensitively; otherwise split the pathname on `/`, discard empty and
`;` segments, and keep the first segment when more than one remains.  On
parse failure, strip the query string and one trailing slash. -/
def getBaseUrl (streamUrl : JStr) : JStr :=
  match parseURL streamUrl with
  | some url =>
      let base := url.protocol ++ strJ ("//") ++ url.host
      if url.pathname = [47] || url.pathname = [47, 59] ||
          hasSub (strJ ("stream")) (toLowerA url.pathname) then
        base
      else
        let segments := (url.pathname.splitOn 47).filter
          (fun s => !s.isEmpty && s ≠ [59])
        if segments.length > 1 then base ++ [47] ++ segments.headD []
        else base
  | none => dropTrailSlash (beforeQuery streamUrl)

/-- Split a string at ECMAScript line terminators (each terminator code unit
is a boundary); a regex `.` cannot cross these, so a match of
`/.*,.*,.*,.*,.*,.*,(.*)/` is confined to one element of this list. -/
def splitLines : JStr → List JStr
  | [] => [[]]
  | c :: rest =>
      if isLineTerm c then [] :: splitLines rest
      else
        match splitLines rest with
        | l :: ls => (c :: l) :: ls
        | [] => [[c]]

/-- Number of commas (code 44) in a line. -/
def countCommas (l : JStr) : Nat := (l.filter (fun c => c = 44)).length

/-- The suffix of a line after its last comma (the whole line when it has
no comma). -/
def afterLastComma (l : JStr) : JStr :=
  (l.reverse.takeWhile (fun c => c ≠ 44)).reverse

/-- Model of `text.match(/.*,.*,.*,.*,.*,.*,(.*)/)` in `fetchShoutcastV1`, reduced to
its captured group.  The six `.*` are greedy and `.` cannot cross a line
terminator, so the leftmost match lives on the first line containing at
least six commas, the first five `.*` together absorb everything up to the
line's last comma, and the capture `(.*)` is the rest of that line: the
match succeeds exactly on the first line with six or more commas and
captures the text after that line's last comma. -/
def extract7 (t : JStr) : Option JStr :=
  match (splitLines t).find? (fun l => 6 ≤ countCommas l) with
  | some l => some (afterLastComma l)
  | none => none

/-- JSON values, the possible results of `response.json()`. -/
inductive JValue where
  | jnull
  | jbool (b : Bool)
  | jnum (n : Int)
  | jstr (s : JStr)
  | jarr (elems : List JValue)
  | jobj (fields : List (String × JValue))

open JValue

/-- JavaScript truthiness of a possibly-undefined value (`none` models
`undefined`): `null`, `false`, `0`, the empty string and `undefined` are
falsy; objects and arrays are always truthy. -/
def truthy : Option JValue → Bool
  | none => false
  | some jnull => false
  | some (jbool b) => b
  | some (jnum n) => n ≠ 0
  | some (jstr s) => !s.isEmpty
  | some (jarr _) => true
  | some (jobj _) => true

/-- First binding of a key in an object's field list. -/
def lookupF : List (String × JValue) → String → Option JValue
  | [], _ => none
  | (k, v) :: rest, key => if k = key then some v else lookupF rest key

/-- Property access `v.key`: throws (`Except.error`) on `null` or
`undefined`, yields the field (or `undefined`) on objects, and `undefined`
on the other primitives. -/
def getF : Option JValue → String → Except Unit (Option JValue)
  | none, _ => .error ()
  | some jnull, _ => .error ()
  | some (jobj fs), key => .ok (lookupF fs key)
  | some _, _ => .ok none

/-- Index access `v[i]`: throws on `null`/`undefined`, indexes arrays (and
strings, whose elements are one-unit strings), and yields `undefined`
otherwise. -/
def getIdx : Option JValue → Nat → Except Unit (Option JValue)
  | none, _ => .error ()
  | some jnull, _ => .error ()
  | some (jarr xs), i => .ok (xs.get? i)
  | some (jstr s), i => .ok ((s.get? i).map (fun c => jstr [c]))
  | some _, _ => .ok none

/-- The sanitizer applied to an arbitrary JSON value: strings are cleaned;
falsy non-strings take the `if (!text) return ''` early exit; truthy
non-strings throw (`.replace` is not a function on them). -/
def cleanJ (v : JValue) : Except Unit JStr :=
  match v with
  | jstr s => .ok (cleanMetadata s)
  | v => if truthy (some v) then .error () else .ok []

/-- The `for (const source of sources)` loop of `fetchIcecastJson`: return
`cleanMetadata(source.title)` for the first source whose `title` is truthy;
accessing `title` on a `null`/`undefined` element throws, as does cleaning a
truthy non-string title. -/
def scanSources : List JValue → Except Unit (Option JStr)
  | [] => .ok none
  | s :: rest =>
      match getF (some s) "title" with
      | .error e => .error e
      | .ok none => scanSources rest
      | .ok (some v) =>
          if truthy (some v) then (cleanJ v).map some
          else scanSources rest

/-- Body of `fetchIcecastJson` after a successful `response.json()`
(metadataFetcher.js lines 51-61): if `data && data.icestats &&
data.icestats.source`, wrap a non-array source into a one-element list and
scan for the first truthy `title`; otherwise `null`. -/
def icecastJsonExtract (data : JValue) : Except Unit (Option JStr) :=
  if truthy (some data) then
    match getF (some data) "icestats" with
    | .error e => .error e
    | .ok ice =>
      if truthy ice then
        match getF ice "source" with
        | .error e => .error e
        | .ok src =>
          if truthy src then
            match src with
            | some (jarr xs) => scanSources xs
            | some v => scanSources [v]
            | none => scanSources []
          else .ok none
      else .ok none
  else .ok none

/-- Second conditional of `fetchShoutcastV2` (metadataFetcher.js line 78):
`data && data.streams && data.streams[0] && data.streams[0].songtitle`. -/
def shoutcastV2Streams (data : JValue) : Except Unit (Option JStr) :=
  if truthy (some data) then
    match getF (some data) "streams" with
    | .error e => .error e
    | .ok streams =>
      if truthy streams then
        match getIdx streams 0 with
        | .error e => .error e
        | .ok s0 =>
          if truthy s0 then
            match getF s0 "songtitle" with
            | .error e => .error e
            | .ok st =>
                match st with
                | some v => if truthy (some v) then (cleanJ v).map some
                            else .ok none
                | none => .ok none
          else .ok none
      else .ok none
  else .ok none

/-- Body of `fetchShoutcastV2` after a successful `response.json()`
(metadataFetcher.js lines 77-81): a truthy top-level `songtitle` wins,
otherwise the first stream's `songtitle` is consulted. -/
def shoutcastV2Extract (data : JValue) : Except Unit (Option JStr) :=
  if truthy (some data) then
    match getF (some data) "songtitle" with
    | .error e => .error e
    | .ok st =>
        match st with
        | some v => if truthy (some v) then (cleanJ v).map some
                    else shoutcastV2Streams data
        | none => shoutcastV2Streams data
  else shoutcastV2Streams data

/-- The literal part of the `fetchIcecastRaw` pattern before the capture. -/
def rawNeedleA : JStr := strJ ("Current Song:</td><td class=\"streamdata\">")

/-- The literal closing the `fetchIcecastRaw` capture. -/
def rawNeedleB : JStr := strJ ("</td>")

/-- Case-insensitive prefix test (ASCII folding, matching the `i` flag on
the ASCII pattern of `fetchIcecastRaw`). -/
def ciStartsW : JStr → JStr → Bool
  | [], _ => true
  | _ :: _, [] => false
  | p :: ps, c :: cs => asciiLow p = asciiLow c && ciStartsW ps cs

/-- The lazy capture `(.*?)<\/td>` continued from a given suffix: take the
fewest code units (none of them line terminators) such that `</td>` follows
case-insensitively; `none` when no such closing exists on this line. -/
def lazyCapture (l : JStr) : Option JStr :=
  if ciStartsW rawNeedleB l then some []
  else
    match l with
    | [] => none
    | c :: rest =>
        if isLineTerm c then none
        else (lazyCapture rest).map (fun cap => c :: cap)

/-- Model of `text.match(/Current Song:<\/td><td class="streamdata">(.*?)<\/td>/i)`
of `fetchIcecastRaw`, reduced to its captured group: the leftmost start at
which the literal prefix matches case-insensitively and a lazy,
same-line capture closed by `</td>` completes. -/
def rawSearch : JStr → Option JStr
  | [] => none
  | l@(_ :: rest) =>
      if ciStartsW rawNeedleA l then
        match lazyCapture (l.drop rawNeedleA.length) with
        | some cap => some cap
        | none => rawSearch rest
      else rawSearch rest

/-- An HTTP response as the probes observe it: `ok` is `response.ok`
(status in the 2xx range), `body` is `response.text()`, and `json` is the
outcome of `response.json()` (`none` = the body is not valid JSON and the
promise rejected). -/
structure HttpResponse where
  ok : Bool
  body : JStr
  json : Option JValue

/-- The network, as a function from request URL to optional response;
`none` models a rejected fetch (network error). -/
abbrev NetEnv := JStr → Option HttpResponse

/-- The constant `CORS_PROXY` (metadataFetcher.js line 6). -/
def corsProxy : JStr := strJ ("https://corsproxy.io/?")

/-- Request URL of `fetchShoutcastV1`. -/
def sv1Url (baseUrl : JStr) : JStr := corsProxy ++ baseUrl ++ strJ ("/7.html")

/-- Request URL of `fetchShoutcastV2`. -/
def sv2Url (baseUrl : JStr) : JStr := corsProxy ++ baseUrl ++ strJ ("/stats?json=1")

/-- Request URL of `fetchIcecastJson`. -/
def ijUrl (baseUrl : JStr) : JStr := corsProxy ++ baseUrl ++ strJ ("/status-json.xsl")

/-- Request URL of `fetchIcecastRaw`. -/
def irUrl (baseUrl : JStr) : JStr := corsProxy ++ baseUrl ++ strJ ("/status.xsl")

/-- Model of `fetchShoutcastV1` (metadataFetcher.js lines 25-37).  The second
component is the list of URLs requested.  A rejected fetch or any other
exception lands in the `catch` and yields `null`; a non-ok status yields
`null`; otherwise the regex capture is cleaned. -/
def fetchShoutcastV1 (env : NetEnv) (baseUrl : JStr) : Option JStr × List JStr :=
  let url := sv1Url baseUrl
  (match env url with
   | none => none
   | some r =>
     if !r.ok then none
     else
       match extract7 r.body with
       | some cap => some (cleanMetadata cap)
       | none => none,
   [url])

/-- Model of `fetchIcecastJson` (metadataFetcher.js lines 42-65): non-ok status or a
JSON parse failure or an exception inside the extraction yields `null`. -/
def fetchIcecastJson (env : NetEnv) (baseUrl : JStr) : Option JStr × List JStr :=
  let url := ijUrl baseUrl
  (match env url with
   | none => none
   | some r =>
     if !r.ok then none
     else
       match r.json with
       | none => none
       | some data =>
         match icecastJsonExtract data with
         | .error _ => none
         | .ok o => o,
   [url])

/-- Model of `fetchShoutcastV2` (metadataFetcher.js lines 70-85). -/
def fetchShoutcastV2 (env : NetEnv) (baseUrl : JStr) : Option JStr × List JStr :=
  let url := sv2Url baseUrl
  (match env url with
   | none => none
   | some r =>
     if !r.ok then none
     else
       match r.json with
       | none => none
       | some data =>
         match shoutcastV2Extract data with
         | .error _ => none
         | .ok o => o,
   [url])

/-- Model of `fetchIcecastRaw` (metadataFetcher.js lines 90-101). -/
def fetchIcecastRaw (env : NetEnv) (baseUrl : JStr) : Option JStr × List JStr :=
  let url := irUrl baseUrl
  (match env url with
   | none => none
   | some r =>
     if !r.ok then none
     else
       match rawSearch r.body with
       | some cap => some (cleanMetadata cap)
       | none => none,
   [url])

/-- Priority scan: the value of the first probe result that is present and
non-empty (truthy), in list order. -/
def firstPresent : List (Option JStr) → Option JStr
  | [] => none
  | none :: rest => firstPresent rest
  | some v :: rest => if v = [] then firstPresent rest else some v

/-- Model of `fetchLiveMetadata` (metadataFetcher.js lines 133-162).  A falsy
(`null` or empty) `streamUrl` returns `null` at once, with no request
recorded.  Otherwise the seven strategies are created in source order
(which starts their requests), `Promise.allSettled` collects every outcome
(our sequential model evaluates them in order — the selection below depends
only on the probe values, not on completion timing), fulfilled truthy
values are kept in order, and `valid[0] || null` is returned.  Every probe
catches its own errors, so each strategy settles fulfilled. -/
def fetchLiveMetadata (env : NetEnv) (streamUrl : Option JStr) :
    Option JStr × List JStr :=
  match streamUrl with
  | none => (none, [])
  | some u =>
    if u = [] then (none, [])
    else
      let base := getBaseUrl u
      let strategies : List (Option JStr × List JStr) :=
        [fetchShoutcastV1 env base,
         fetchShoutcastV2 env base,
         fetchIcecastJson env base,
         fetchIcecastRaw env base,
         fetchShoutcastV1 env (beforeQuery u),
         fetchIcecastJson env (beforeQuery u),
         fetchIcecastRaw env (beforeQuery u)]
      let valid := (strategies.map Prod.fst).filterMap
        (fun r =>
          match r with
          | some v => if v = [] then none else some v
          | none => none)
      (match valid.head? with
       | some v => if v = [] then none else some v
       | none => none,
       (strategies.map Prod.snd).flatten)

/-! ### Properties of the sanitizer -/

theorem stripTagsAux_not_mem_lt (l : JStr) : ∀ b, 60 ∉ stripTagsAux l b := by
  induction l with
  | nil => intro b; simp [stripTagsAux]
  | cons c rest ih =>
      intro b
      cases b with
      | false =>
          by_cases hc : c = 60
          · simpa [stripTagsAux, hc] using ih true
          · intro hmem
            rw [stripTagsAux, if_neg hc] at hmem
            rcases List.mem_cons.mp hmem with he | hm
            · exact hc he.symm
            · exact ih false hm
      | true =>
          by_cases hc : c = 62
          · simpa [stripTagsAux, hc] using ih false
          · simpa [stripTagsAux, hc] using ih true

theorem stripTags_not_mem_lt (l : JStr) : 60 ∉ stripTags l :=
  stripTagsAux_not_mem_lt l false

theorem stripTags_of_not_mem_lt {l : JStr} (h : 60 ∉ l) : stripTags l = l := by
  induction l with
  | nil => rfl
  | cons c rest ih =>
      have hc : c ≠ 60 := fun he => h (he ▸ List.mem_cons_self c rest)
      have hrest : 60 ∉ rest := fun hm => h (List.mem_cons_of_mem c hm)
      simpa [stripTags, stripTagsAux, hc] using ih hrest

theorem stripTagsAux_length (l : JStr) : ∀ b, (stripTagsAux l b).length ≤ l.length := by
  induction l with
  | nil => intro b; simp [stripTagsAux]
  | cons c rest ih =>
      intro b
      cases b with
      | false =>
          by_cases hc : c = 60
          · simp only [stripTagsAux, hc, if_pos rfl]
            exact Nat.le_succ_of_le (ih true)
          · simp only [stripTagsAux, if_neg hc, List.length_cons]
            exact Nat.succ_le_succ (ih false)
      | true =>
          by_cases hc : c = 62
          · simp only [stripTagsAux, hc, if_pos rfl]
            exact Nat.le_succ_of_le (ih false)
          · simp only [stripTagsAux, if_neg hc]
            exact Nat.le_succ_of_le (ih true)

theorem stripCtl_not_ctl {c : Nat} {l : JStr} (h : c ∈ stripCtl l) : isCtl c = false := by
  have := List.of_mem_filter h
  simpa using this

theorem stripCtl_of_clean {l : JStr} (h : ∀ c ∈ l, isCtl c = false) : stripCtl l = l :=
  List.filter_eq_self.mpr (fun c hc => by simp [h c hc])

theorem mem_stripCtl {c : Nat} {l : JStr} (h : c ∈ stripCtl l) : c ∈ l :=
  (List.mem_filter.mp h).1

theorem dropWhile_of_all_false {p : Nat → Bool} {l : JStr}
    (h : ∀ c ∈ l, p c = false) : l.dropWhile p = l := by
  cases l with
  | nil => rfl
  | cons c rest => simp [List.dropWhile_cons, h c (List.mem_cons_self c rest)]

theorem dropWhile_dropWhile (p : Nat → Bool) (l : JStr) :
    (l.dropWhile p).dropWhile p = l.dropWhile p := by
  induction l with
  | nil => rfl
  | cons c rest ih =>
      by_cases hc : p c = true
      · simpa [List.dropWhile_cons, hc] using ih
      · simp [List.dropWhile_cons, hc]

theorem mem_trimEnd {c : Nat} {l : JStr} (h : c ∈ trimEnd l) : c ∈ l := by
  have h1 : c ∈ l.reverse.dropWhile isWS := by
    simpa [trimEnd, List.mem_reverse] using h
  exact List.mem_reverse.mp ((List.dropWhile_sublist isWS).subset h1)

theorem mem_jsTrim {c : Nat} {l : JStr} (h : c ∈ jsTrim l) : c ∈ l :=
  (List.dropWhile_sublist isWS).subset (mem_trimEnd h)

theorem trimEnd_length (l : JStr) : (trimEnd l).length ≤ l.length := by
  have := (List.dropWhile_sublist (l := l.reverse) isWS).length_le
  simpa [trimEnd] using this

theorem jsTrim_length (l : JStr) : (jsTrim l).length ≤ l.length :=
  le_trans (trimEnd_length _) ((List.dropWhile_sublist isWS).length_le)

theorem trimEnd_idem (l : JStr) : trimEnd (trimEnd l) = trimEnd l := by
  simp [trimEnd, List.reverse_reverse, dropWhile_dropWhile]

theorem dropWhile_append_last {p : Nat → Bool} {c : Nat} (hc : p c = false) :
    ∀ x : JStr, ∃ w : JStr, (x ++ [c]).dropWhile p = w ++ [c] := by
  intro x
  induction x with
  | nil => exact ⟨[], by simp [List.dropWhile_cons, hc]⟩
  | cons a x' ih =>
      by_cases ha : p a = true
      · obtain ⟨w, hw⟩ := ih
        exact ⟨w, by simpa [List.dropWhile_cons, ha] using hw⟩
      · exact ⟨a :: x', by simp [List.dropWhile_cons, ha]⟩

theorem dropWhile_trimEnd {l : JStr} (h : l.dropWhile isWS = l) :
    (trimEnd l).dropWhile isWS = trimEnd l := by
  cases l with
  | nil => rfl
  | cons c t =>
      have hc : isWS c = false := by
        by_contra hcc
        have hcc' : isWS c = true := by
          cases hx : isWS c
          · exact absurd hx hcc
          · rfl
        have h2 : (c :: t).dropWhile isWS = t.dropWhile isWS := by
          simp [List.dropWhile_cons, hcc']
        have h3 := (List.dropWhile_sublist (l := t) isWS).length_le
        rw [h] at h2
        have : (c :: t).length ≤ t.length := h2 ▸ h3
        simp at this
      obtain ⟨w, hw⟩ := dropWhile_append_last (p := isWS) hc t.reverse
      have htr : trimEnd (c :: t) = c :: w.reverse := by
        have : (c :: t).reverse = t.reverse ++ [c] := by simp
        rw [trimEnd, this, hw]
        simp
      rw [htr]
      simp [List.dropWhile_cons, hc]

theorem jsTrim_idem (l : JStr) : jsTrim (jsTrim l) = jsTrim l := by
  have h1 : (l.dropWhile isWS).dropWhile isWS = l.dropWhile isWS :=
    dropWhile_dropWhile isWS l
  calc jsTrim (jsTrim l) = trimEnd ((trimEnd (l.dropWhile isWS)).dropWhile isWS) := rfl
    _ = trimEnd (trimEnd (l.dropWhile isWS)) := by rw [dropWhile_trimEnd h1]
    _ = trimEnd (l.dropWhile isWS) := trimEnd_idem _
    _ = jsTrim l := rfl

theorem mem_cleanMetadata {c : Nat} {t : JStr} (h : c ∈ cleanMetadata t) :
    c ∈ stripCtl (stripTags t) := by
  by_cases hx : t = []
  · subst hx; simp [cleanMetadata] at h
  · rw [cleanMetadata, if_neg hx] at h
    exact mem_jsTrim ((List.take_sublist _ _).subset h)

set_option maxRecDepth 4000 in
/-- C3 counterexample: `cleanMetadata` is not idempotent.  On the
101-character input `"a" ++ 99 spaces ++ "b"` the first application trims
nothing (the input starts and ends with a letter) and then truncates away
the final `"b"`, leaving 99 trailing spaces that a second application
trims away. -/
theorem cleanMetadata_not_idem :
    cleanMetadata (cleanMetadata ((strJ ("a")) ++ List.replicate 99 32 ++ (strJ ("b")))) ≠
      cleanMetadata ((strJ ("a")) ++ List.replicate 99 32 ++ (strJ ("b"))) := by decide

/-- C3 (amended): the sanitizer is idempotent on every input of length at
most 100 — exactly the inputs on which the final `substring(0, 100)`
truncation cannot expose new trailing whitespace. -/
theorem cleanMetadata_idem_of_le100 (x : JStr) (h : x.length ≤ 100) :
    cleanMetadata (cleanMetadata x) = cleanMetadata x := by
  by_cases hx : x = []
  · subst hx; rfl
  · have hlen : (jsTrim (stripCtl (stripTags x))).length ≤ 100 :=
      calc (jsTrim (stripCtl (stripTags x))).length
          ≤ (stripCtl (stripTags x)).length := jsTrim_length _
        _ ≤ (stripTags x).length := List.length_filter_le _ _
        _ ≤ x.length := stripTagsAux_length x false
        _ ≤ 100 := h
    have hy : cleanMetadata x = jsTrim (stripCtl (stripTags x)) := by
      rw [cleanMetadata, if_neg hx, List.take_of_length_le hlen]
    rw [hy]
    by_cases hynil : jsTrim (stripCtl (stripTags x)) = []
    · rw [hynil]; rfl
    · have h60 : 60 ∉ jsTrim (stripCtl (stripTags x)) := fun hm =>
        stripTags_not_mem_lt x (mem_stripCtl (mem_jsTrim hm))
      have hctl : stripCtl (jsTrim (stripCtl (stripTags x))) =
          jsTrim (stripCtl (stripTags x)) :=
        stripCtl_of_clean (fun c hc => stripCtl_not_ctl (mem_jsTrim hc))
      rw [cleanMetadata, if_neg hynil, stripTags_of_not_mem_lt h60, hctl,
        jsTrim_idem, List.take_of_length_le hlen]

/-- C3 witness: idempotence at a concrete short input. -/
theorem cleanMetadata_idem_of_le100_witness :
    (strJ ("An Artist - A Song")).length ≤ 100 ∧
    cleanMetadata (cleanMetadata (strJ ("An Artist - A Song"))) =
      cleanMetadata (strJ ("An Artist - A Song")) :=
  ⟨by decide, cleanMetadata_idem_of_le100 (strJ ("An Artist - A Song")) (by decide)⟩

/-- C6: every output of the sanitizer satisfies the Metadata invariant —
at most 100 code units, no `<` (code 60, hence no markup tag, since every
tag starts with `<`), and no ASCII or C1 control characters — and absent
(`null`) or empty input yields the empty string. -/
theorem cleanMetadata_invariant (t : JStr) :
    (cleanMetadata t).length ≤ 100 ∧ 60 ∉ cleanMetadata t ∧
    (∀ c ∈ cleanMetadata t, isCtl c = false) ∧
    cleanMetadataO none = [] ∧ cleanMetadata [] = [] := by
  refine ⟨?_, ?_, ?_, rfl, rfl⟩
  · by_cases hx : t = []
    · subst hx; simp [cleanMetadata]
    · rw [cleanMetadata, if_neg hx, List.length_take]
      exact inf_le_left
  · exact fun hm => stripTags_not_mem_lt t (mem_stripCtl (mem_cleanMetadata hm))
  · exact fun c hc => stripCtl_not_ctl (mem_cleanMetadata hc)

set_option maxRecDepth 4000 in
/-- C7 counterexample: a 250-character input need not clean to 100
characters — 250 spaces trim to the empty string (length 0). -/
theorem cleanMetadata_250_cx :
    (List.replicate 250 32 : JStr).length = 250 ∧
    (cleanMetadata (List.replicate 250 32)).length ≠ 100 := by decide

/-- C7 (amended): a 250-character input cleans to exactly 100 characters
provided none of its characters is removed by the sanitizer's earlier
stages — no `<` (tag stripping), no control characters, and no whitespace
(trimming). -/
theorem cleanMetadata_250_truncates (t : JStr) (hlen : t.length = 250)
    (hsafe : ∀ c ∈ t, c ≠ 60 ∧ isCtl c = false ∧ isWS c = false) :
    (cleanMetadata t).length = 100 := by
  have hx : t ≠ [] := by intro h; rw [h] at hlen; simp at hlen
  have htags : stripTags t = t :=
    stripTags_of_not_mem_lt (fun hm => (hsafe 60 hm).1 rfl)
  have hctl : stripCtl t = t := stripCtl_of_clean (fun c hc => (hsafe c hc).2.1)
  have hdw : t.dropWhile isWS = t :=
    dropWhile_of_all_false (fun c hc => (hsafe c hc).2.2)
  have hdw2 : t.reverse.dropWhile isWS = t.reverse :=
    dropWhile_of_all_false (fun c hc => (hsafe c (List.mem_reverse.mp hc)).2.2)
  have htrim : jsTrim t = t := by
    rw [jsTrim, hdw, trimEnd, hdw2, List.reverse_reverse]
  rw [cleanMetadata, if_neg hx, htags, hctl, htrim, List.length_take, hlen]
  decide

set_option maxRecDepth 4000 in
/-- C7 witness: 250 letters clean to exactly 100 characters. -/
theorem cleanMetadata_250_truncates_witness :
    (List.replicate 250 97 : JStr).length = 250 ∧
    (cleanMetadata (List.replicate 250 97)).length = 100 :=
  ⟨by decide, cleanMetadata_250_truncates (List.replicate 250 97) (by decide) (by decide)⟩

/-! ### Base-URL derivation -/

set_option maxRecDepth 4000 in
/-- C2: evaluation of `getBaseUrl` on the spec's four examples.  The last
three agree with the spec, but `"http://host.com/9020/stream"` yields
`"http://host.com"`, not `"http://host.com/9020"`: the pathname
`/9020/stream` contains the substring "stream", so the origin-only branch
fires before the mount-point branch — even though the code's own comment
on the mount-point branch cites exactly the path `/9020/stream` as the
case it is meant to keep. -/
theorem getBaseUrl_examples :
    getBaseUrl (strJ ("http://host.com/9020/stream")) = strJ ("http://host.com") ∧
    getBaseUrl (strJ ("http://host.com/9020/stream")) ≠ strJ ("http://host.com/9020") ∧
    getBaseUrl (strJ ("http://host.com/")) = strJ ("http://host.com") ∧
    getBaseUrl (strJ ("http://host.com/;")) = strJ ("http://host.com") ∧
    getBaseUrl (strJ ("http://host.com/livestream")) = strJ ("http://host.com") := by
  decide

/-! ### The Shoutcast v1 probe -/

theorem splitLines_of_no_term {l : JStr}
    (h : ∀ c ∈ l, isLineTerm c = false) : splitLines l = [l] := by
  induction l with
  | nil => rfl
  | cons c rest ih =>
      have hc : isLineTerm c = false := h c (List.mem_cons_self c rest)
      have hrest := ih (fun x hx => h x (List.mem_cons_of_mem c hx))
      simp [splitLines, hc, hrest]

theorem countCommas_append (a b : JStr) :
    countCommas (a ++ b) = countCommas a + countCommas b := by
  simp [countCommas, List.filter_append]

theorem countCommas_of_no_comma {l : JStr} (h : ∀ c ∈ l, c ≠ 44) :
    countCommas l = 0 := by
  simp only [countCommas, List.length_eq_zero]
  rw [List.filter_eq_nil_iff]
  intro c hc
  simpa using h c hc

theorem takeWhile_of_all {p : Nat → Bool} {l : JStr} (h : ∀ c ∈ l, p c = true) :
    l.takeWhile p = l := by
  induction l with
  | nil => rfl
  | cons a l' ih =>
      simp only [List.takeWhile_cons, h a (List.mem_cons_self a l'), if_pos]
      rw [ih (fun c hc => h c (List.mem_cons_of_mem a hc))]

theorem afterLastComma_of_no_comma {y : JStr} (h : ∀ c ∈ y, c ≠ 44) :
    afterLastComma y = y := by
  have hall : ∀ c ∈ y.reverse, (fun x : Nat => decide (x ≠ 44)) c = true := by
    intro c hc
    simpa using h c (List.mem_reverse.mp hc)
  rw [afterLastComma, takeWhile_of_all hall, List.reverse_reverse]

theorem takeWhile_append_false {p : Nat → Bool} {y : Nat} (hy : p y = false)
    (xs ys : JStr) : (xs ++ y :: ys).takeWhile p = xs.takeWhile p := by
  induction xs with
  | nil => simp [List.takeWhile_cons, hy]
  | cons a xs' ih =>
      by_cases ha : p a = true
      · simp [List.takeWhile_cons, ha, ih]
      · simp [List.takeWhile_cons, ha]

theorem afterLastComma_append_any (x y : JStr) :
    afterLastComma (x ++ 44 :: y) = afterLastComma y := by
  have hrev : (x ++ 44 :: y).reverse = y.reverse ++ 44 :: x.reverse := by simp
  rw [afterLastComma, afterLastComma, hrev,
    takeWhile_append_false (by decide) y.reverse x.reverse]

set_option maxRecDepth 4000 in
/-- C4 counterexample: when the free text after the six fields itself
contains a comma, the greedy regex captures after the *last* comma, not the
6th.  On the body `1,1,100,100,1,128,Artist, The - Title` the claim
predicts the title `Artist, The - Title` (which the sanitizer leaves
unchanged), but the probe returns `The - Title`. -/
theorem fetchShoutcastV1_sixth_comma_cx :
    (fetchShoutcastV1
        (fun u => if u = sv1Url (strJ ("http://radio.example")) then
            some ⟨true, strJ ("1,1,100,100,1,128,Artist, The - Title"), none⟩
          else none)
        (strJ ("http://radio.example"))).1 = some (strJ ("The - Title")) ∧
    cleanMetadata (strJ ("Artist, The - Title")) = strJ ("Artist, The - Title") ∧
    (fetchShoutcastV1
        (fun u => if u = sv1Url (strJ ("http://radio.example")) then
            some ⟨true, strJ ("1,1,100,100,1,128,Artist, The - Title"), none⟩
          else none)
        (strJ ("http://radio.example"))).1 ≠
      some (cleanMetadata (strJ ("Artist, The - Title"))) := by
  refine ⟨by decide, by decide, ?_⟩
  intro h
  have := h.symm.trans (by decide :
    (fetchShoutcastV1
        (fun u => if u = sv1Url (strJ ("http://radio.example")) then
            some ⟨true, strJ ("1,1,100,100,1,128,Artist, The - Title"), none⟩
          else none)
        (strJ ("http://radio.example"))).1 = some (strJ ("The - Title")))
  rw [(by decide : cleanMetadata (strJ ("Artist, The - Title")) =
    strJ ("Artist, The - Title"))] at this
  exact absurd this (by decide)

/-- C4 (amended): on a body of six comma-free, terminator-free fields
followed by terminator-free free text — which may itself contain commas —
the Shoutcast v1 probe captures everything after the *last* comma of the
body and sanitizes it; when the free text contains no comma, this
coincides with "everything after the 6th comma"; and when no line of the
body contains at least six commas, the probe returns absent.  For the
spec's example body `1,1,100,100,1,128,Artist - Title` it returns
`Artist - Title`. -/
theorem fetchShoutcastV1_last_comma :
    (∀ (env : NetEnv) (base : JStr) (r : HttpResponse)
      (f1 f2 f3 f4 f5 f6 title : JStr),
      env (sv1Url base) = some r → r.ok = true →
      r.body = f1 ++ [44] ++ f2 ++ [44] ++ f3 ++ [44] ++ f4 ++ [44] ++
        f5 ++ [44] ++ f6 ++ [44] ++ title →
      (∀ c ∈ f1 ++ f2 ++ f3 ++ f4 ++ f5 ++ f6,
        c ≠ 44 ∧ isLineTerm c = false) →
      (∀ c ∈ title, isLineTerm c = false) →
      (fetchShoutcastV1 env base).1 =
        some (cleanMetadata (afterLastComma title))) ∧
    (∀ (env : NetEnv) (base : JStr) (r : HttpResponse)
      (f1 f2 f3 f4 f5 f6 title : JStr),
      env (sv1Url base) = some r → r.ok = true →
      r.body = f1 ++ [44] ++ f2 ++ [44] ++ f3 ++ [44] ++ f4 ++ [44] ++
        f5 ++ [44] ++ f6 ++ [44] ++ title →
      (∀ c ∈ f1 ++ f2 ++ f3 ++ f4 ++ f5 ++ f6,
        c ≠ 44 ∧ isLineTerm c = false) →
      (∀ c ∈ title, c ≠ 44 ∧ isLineTerm c = false) →
      (fetchShoutcastV1 env base).1 = some (cleanMetadata title)) ∧
    (∀ (env : NetEnv) (base : JStr) (r : HttpResponse),
      env (sv1Url base) = some r → r.ok = true →
      (∀ l ∈ splitLines r.body, countCommas l < 6) →
      (fetchShoutcastV1 env base).1 = none) := by
  have main : ∀ (env : NetEnv) (base : JStr) (r : HttpResponse)
      (f1 f2 f3 f4 f5 f6 title : JStr),
      env (sv1Url base) = some r → r.ok = true →
      r.body = f1 ++ [44] ++ f2 ++ [44] ++ f3 ++ [44] ++ f4 ++ [44] ++
        f5 ++ [44] ++ f6 ++ [44] ++ title →
      (∀ c ∈ f1 ++ f2 ++ f3 ++ f4 ++ f5 ++ f6,
        c ≠ 44 ∧ isLineTerm c = false) →
      (∀ c ∈ title, isLineTerm c = false) →
      (fetchShoutcastV1 env base).1 =
        some (cleanMetadata (afterLastComma title)) := by
    intro env base r f1 f2 f3 f4 f5 f6 title henv hok hbody hf ht
    have hf1 : ∀ c ∈ f1, c ≠ 44 ∧ isLineTerm c = false := by
      intro c hc; exact hf c (by simp [hc])
    have hf2 : ∀ c ∈ f2, c ≠ 44 ∧ isLineTerm c = false := by
      intro c hc; exact hf c (by simp [hc])
    have hf3 : ∀ c ∈ f3, c ≠ 44 ∧ isLineTerm c = false := by
      intro c hc; exact hf c (by simp [hc])
    have hf4 : ∀ c ∈ f4, c ≠ 44 ∧ isLineTerm c = false := by
      intro c hc; exact hf c (by simp [hc])
    have hf5 : ∀ c ∈ f5, c ≠ 44 ∧ isLineTerm c = false := by
      intro c hc; exact hf c (by simp [hc])
    have hf6 : ∀ c ∈ f6, c ≠ 44 ∧ isLineTerm c = false := by
      intro c hc; exact hf c (by simp [hc])
    have hterm : ∀ c ∈ r.body, isLineTerm c = false := by
      intro c hc
      rw [hbody] at hc
      simp only [List.append_assoc, List.mem_append, List.mem_singleton] at hc
      rcases hc with h | h | h | h | h | h | h | h | h | h | h | h | h
      · exact (hf1 c h).2
      · subst h; rfl
      · exact (hf2 c h).2
      · subst h; rfl
      · exact (hf3 c h).2
      · subst h; rfl
      · exact (hf4 c h).2
      · subst h; rfl
      · exact (hf5 c h).2
      · subst h; rfl
      · exact (hf6 c h).2
      · subst h; rfl
      · exact ht c h
    have hcount : 6 ≤ countCommas r.body := by
      rw [hbody]
      simp only [List.append_assoc]
      rw [show f1 ++ ([44] ++ (f2 ++ ([44] ++ (f3 ++ ([44] ++ (f4 ++ ([44] ++
        (f5 ++ ([44] ++ (f6 ++ ([44] ++ title))))))))))) =
        f1 ++ [44] ++ (f2 ++ [44] ++ (f3 ++ [44] ++ (f4 ++ [44] ++
        (f5 ++ [44] ++ (f6 ++ [44] ++ title))))) by simp]
      simp only [countCommas_append]
      have : countCommas [44] = 1 := by decide
      omega
    have hextract : extract7 r.body = some (afterLastComma title) := by
      rw [extract7, splitLines_of_no_term hterm]
      have hfind : List.find? (fun l => decide (6 ≤ countCommas l)) [r.body] =
          some r.body := by
        simp [List.find?, hcount]
      rw [hfind]
      have hpre : r.body = (f1 ++ [44] ++ f2 ++ [44] ++ f3 ++ [44] ++ f4 ++
          [44] ++ f5 ++ [44] ++ f6) ++ 44 :: title := by
        rw [hbody]; simp
      rw [hpre]
      have hlast := afterLastComma_append_any
        (f1 ++ [44] ++ f2 ++ [44] ++ f3 ++ [44] ++ f4 ++ [44] ++ f5 ++
          [44] ++ f6) title
      simpa using hlast
    simp [fetchShoutcastV1, henv, hok, hextract]
  refine ⟨main, ?_, ?_⟩
  · intro env base r f1 f2 f3 f4 f5 f6 title henv hok hbody hf ht
    have h0 := main env base r f1 f2 f3 f4 f5 f6 title henv hok hbody hf
      (fun c hc => (ht c hc).2)
    rwa [afterLastComma_of_no_comma (fun c hc => (ht c hc).1)] at h0
  · intro env base r henv hok hnone
    have hextract : extract7 r.body = none := by
      rw [extract7]
      have : List.find? (fun l => decide (6 ≤ countCommas l))
          (splitLines r.body) = none := by
        rw [List.find?_eq_none]
        intro l hl
        simpa using Nat.not_le.mpr (hnone l hl)
      rw [this]
    simp [fetchShoutcastV1, henv, hok, hextract]

set_option maxRecDepth 4000 in
/-- C4 witness: the amended theorem applied to the spec's example body, and
to a body whose free text itself contains a comma. -/
theorem fetchShoutcastV1_last_comma_witness :
    (fetchShoutcastV1
        (fun u => if u = sv1Url (strJ ("http://radio.example")) then
            some ⟨true, strJ ("1,1,100,100,1,128,Artist - Title"), none⟩
          else none)
        (strJ ("http://radio.example"))).1 =
      some (cleanMetadata (strJ ("Artist - Title"))) ∧
    cleanMetadata (strJ ("Artist - Title")) = strJ ("Artist - Title") ∧
    (fetchShoutcastV1
        (fun u => if u = sv1Url (strJ ("http://radio2.example")) then
            some ⟨true, strJ ("1,1,100,100,1,128,Artist, The - Title"), none⟩
          else none)
        (strJ ("http://radio2.example"))).1 =
      some (cleanMetadata (afterLastComma (strJ ("Artist, The - Title")))) ∧
    cleanMetadata (afterLastComma (strJ ("Artist, The - Title"))) =
      strJ ("The - Title") :=
  ⟨fetchShoutcastV1_last_comma.2.1
      (fun u => if u = sv1Url (strJ ("http://radio.example")) then
          some ⟨true, strJ ("1,1,100,100,1,128,Artist - Title"), none⟩
        else none)
      (strJ ("http://radio.example"))
      ⟨true, strJ ("1,1,100,100,1,128,Artist - Title"), none⟩
      (strJ ("1")) (strJ ("1")) (strJ ("100")) (strJ ("100")) (strJ ("1"))
      (strJ ("128")) (strJ ("Artist - Title"))
      rfl rfl (by decide) (by decide) (by decide),
    by decide,
    fetchShoutcastV1_last_comma.1
      (fun u => if u = sv1Url (strJ ("http://radio2.example")) then
          some ⟨true, strJ ("1,1,100,100,1,128,Artist, The - Title"), none⟩
        else none)
      (strJ ("http://radio2.example"))
      ⟨true, strJ ("1,1,100,100,1,128,Artist, The - Title"), none⟩
      (strJ ("1")) (strJ ("1")) (strJ ("100")) (strJ ("100")) (strJ ("1"))
      (strJ ("128")) (strJ ("Artist, The - Title"))
      rfl rfl (by decide) (by decide) (by decide),
    by decide⟩

/-! ### The Icecast JSON probe -/

theorem scanSources_append {pre rest : List JValue}
    (h : ∀ x ∈ pre, ∃ o, getF (some x) "title" = .ok o ∧ truthy o = false) :
    scanSources (pre ++ rest) = scanSources rest := by
  induction pre with
  | nil => rfl
  | cons s pre' ih =>
      obtain ⟨o, ho, hfal⟩ := h s (List.mem_cons_self s pre')
      have ihh := ih (fun x hx => h x (List.mem_cons_of_mem s hx))
      cases o with
      | none => simpa [scanSources, ho] using ihh
      | some v => simpa [scanSources, ho, hfal] using ihh

/-- C5: the Icecast JSON probe treats `icestats.source` as a single object
or a list; in a list it returns the sanitized `title` of the first source
with a (truthy) title, scanning in list order — in particular the second
element's title when the sources before it have none — a single object is
treated as a one-element list, and when no source has a title or the
`icestats` structure is missing the probe returns absent. -/
theorem fetchIcecastJson_first_title :
    (∀ (env : NetEnv) (base : JStr) (r : HttpResponse) (pre rest : List JValue)
      (fs : List (String × JValue)) (t : JStr),
      env (ijUrl base) = some r → r.ok = true →
      r.json = some (jobj [("icestats", jobj [("source",
        jarr (pre ++ jobj (("title", jstr t) :: fs) :: rest))])]) →
      (∀ x ∈ pre, ∃ o, getF (some x) "title" = .ok o ∧ truthy o = false) →
      t ≠ [] →
      (fetchIcecastJson env base).1 = some (cleanMetadata t)) ∧
    (∀ (env : NetEnv) (base : JStr) (r : HttpResponse)
      (fs : List (String × JValue)) (t : JStr),
      env (ijUrl base) = some r → r.ok = true →
      r.json = some (jobj [("icestats", jobj [("source",
        jobj (("title", jstr t) :: fs))])]) →
      t ≠ [] →
      (fetchIcecastJson env base).1 = some (cleanMetadata t)) ∧
    (∀ (env : NetEnv) (base : JStr) (r : HttpResponse) (sources : List JValue),
      env (ijUrl base) = some r → r.ok = true →
      r.json = some (jobj [("icestats", jobj [("source", jarr sources)])]) →
      (∀ x ∈ sources, ∃ o, getF (some x) "title" = .ok o ∧ truthy o = false) →
      (fetchIcecastJson env base).1 = none) ∧
    (∀ (env : NetEnv) (base : JStr) (r : HttpResponse)
      (fs : List (String × JValue)),
      env (ijUrl base) = some r → r.ok = true →
      r.json = some (jobj fs) → lookupF fs "icestats" = none →
      (fetchIcecastJson env base).1 = none) := by
  refine ⟨?_, ?_, ?_, ?_⟩
  · intro env base r pre rest fs t henv hok hjson hpre ht
    have hscan : scanSources (pre ++ jobj (("title", jstr t) :: fs) :: rest) =
        .ok (some (cleanMetadata t)) := by
      rw [scanSources_append hpre]
      cases t with
      | nil => exact absurd rfl ht
      | cons c cs => simp [scanSources, getF, lookupF, truthy, cleanJ, Except.map]
    have hex : icecastJsonExtract (jobj [("icestats", jobj [("source",
        jarr (pre ++ jobj (("title", jstr t) :: fs) :: rest))])]) =
        .ok (some (cleanMetadata t)) := by
      simp [icecastJsonExtract, getF, lookupF, truthy, hscan]
    simp [fetchIcecastJson, henv, hok, hjson, hex]
  · intro env base r fs t henv hok hjson ht
    have hscan : scanSources [jobj (("title", jstr t) :: fs)] =
        .ok (some (cleanMetadata t)) := by
      cases t with
      | nil => exact absurd rfl ht
      | cons c cs => simp [scanSources, getF, lookupF, truthy, cleanJ, Except.map]
    have hex : icecastJsonExtract (jobj [("icestats", jobj [("source",
        jobj (("title", jstr t) :: fs))])]) = .ok (some (cleanMetadata t)) := by
      simp [icecastJsonExtract, getF, lookupF, truthy, hscan]
    simp [fetchIcecastJson, henv, hok, hjson, hex]
  · intro env base r sources henv hok hjson hall
    have hscan : scanSources sources = .ok none := by
      have h0 := @scanSources_append sources [] hall
      simpa using h0
    have hex : icecastJsonExtract (jobj [("icestats", jobj [("source",
        jarr sources)])]) = .ok none := by
      simp [icecastJsonExtract, getF, lookupF, truthy, hscan]
    simp [fetchIcecastJson, henv, hok, hjson, hex]
  · intro env base r fs henv hok hjson hmiss
    have hex : icecastJsonExtract (jobj fs) = .ok none := by
      simp [icecastJsonExtract, getF, hmiss, truthy]
    simp [fetchIcecastJson, henv, hok, hjson, hex]

/-- C5 witness: a source list whose first element has no title and whose
second element is titled yields the second element's title. -/
theorem fetchIcecastJson_first_title_witness :
    (fetchIcecastJson
        (fun u => if u = ijUrl (strJ ("http://radio.example")) then
            some ⟨true, [], some (jobj [("icestats", jobj [("source",
              jarr [jobj [("listeners", jnum 3)],
                jobj [("title", jstr (strJ ("Song X")))]])])])⟩
          else none)
        (strJ ("http://radio.example"))).1 =
      some (cleanMetadata (strJ ("Song X"))) ∧
    cleanMetadata (strJ ("Song X")) = strJ ("Song X") :=
  ⟨fetchIcecastJson_first_title.1
      (fun u => if u = ijUrl (strJ ("http://radio.example")) then
          some ⟨true, [], some (jobj [("icestats", jobj [("source",
            jarr [jobj [("listeners", jnum 3)],
              jobj [("title", jstr (strJ ("Song X")))]])])])⟩
        else none)
      (strJ ("http://radio.example"))
      ⟨true, [], some (jobj [("icestats", jobj [("source",
        jarr [jobj [("listeners", jnum 3)],
          jobj [("title", jstr (strJ ("Song X")))]])])])⟩
      [jobj [("listeners", jnum 3)]] [] [] (strJ ("Song X"))
      rfl rfl rfl
      (by
        intro x hx
        have hx' : x = jobj [("listeners", jnum 3)] := by simpa using hx
        subst hx'
        exact ⟨none, rfl, rfl⟩)
      (by decide),
    by decide⟩

/-! ### The aggregator -/

theorem aggregate_eq_firstPresent (rs : List (Option JStr)) :
    (match (rs.filterMap fun r =>
        match r with
        | some v => if v = [] then none else some v
        | none => none).head? with
     | some v => if v = [] then none else some v
     | none => none) = firstPresent rs := by
  induction rs with
  | nil => rfl
  | cons r rest ih =>
      cases r with
      | none => simpa [List.filterMap_cons, firstPresent] using ih
      | some v =>
          by_cases hv : v = []
          · simpa [List.filterMap_cons, hv, firstPresent] using ih
          · simp [List.filterMap_cons, hv, firstPresent]

theorem firstPresent_spec (rs : List (Option JStr)) :
    firstPresent rs = none ∨ ∃ v, firstPresent rs = some v ∧ v ≠ [] := by
  induction rs with
  | nil => left; rfl
  | cons r rest ih =>
      cases r with
      | none => simpa [firstPresent] using ih
      | some v =>
          by_cases hv : v = []
          · simpa [firstPresent, hv] using ih
          · right; exact ⟨v, by simp [firstPresent, hv], hv⟩

theorem fetchLiveMetadata_some_eq (env : NetEnv) (u : JStr) (h : u ≠ []) :
    fetchLiveMetadata env (some u) =
      (firstPresent
        [(fetchShoutcastV1 env (getBaseUrl u)).1,
         (fetchShoutcastV2 env (getBaseUrl u)).1,
         (fetchIcecastJson env (getBaseUrl u)).1,
         (fetchIcecastRaw env (getBaseUrl u)).1,
         (fetchShoutcastV1 env (beforeQuery u)).1,
         (fetchIcecastJson env (beforeQuery u)).1,
         (fetchIcecastRaw env (beforeQuery u)).1],
       [sv1Url (getBaseUrl u), sv2Url (getBaseUrl u), ijUrl (getBaseUrl u),
        irUrl (getBaseUrl u), sv1Url (beforeQuery u), ijUrl (beforeQuery u),
        irUrl (beforeQuery u)]) := by
  have hagg := aggregate_eq_firstPresent
    [(fetchShoutcastV1 env (getBaseUrl u)).1,
     (fetchShoutcastV2 env (getBaseUrl u)).1,
     (fetchIcecastJson env (getBaseUrl u)).1,
     (fetchIcecastRaw env (getBaseUrl u)).1,
     (fetchShoutcastV1 env (beforeQuery u)).1,
     (fetchIcecastJson env (beforeQuery u)).1,
     (fetchIcecastRaw env (beforeQuery u)).1]
  simp only [fetchLiveMetadata, if_neg h]
  refine Prod.ext ?_ ?_
  · exact hagg
  · rfl

/-- C1: for every non-empty stream URL, `fetchLiveMetadata` issues exactly
seven probe requests in the fixed order ShoutcastV1, ShoutcastV2,
IcecastJSON, IcecastRaw against the derived base, then ShoutcastV1,
IcecastJSON, IcecastRaw against the query-stripped raw URL (the trace
records every request, so all seven run regardless of their outcomes), and
its result is the value of the first probe in that fixed priority order
whose value is usable (present and non-empty), independent of completion
timing — the model collects all outcomes, as `Promise.allSettled` does,
before selecting. -/
theorem fetchLiveMetadata_priority (env : NetEnv) (u : JStr) (h : u ≠ []) :
    (fetchLiveMetadata env (some u)).2 =
      [sv1Url (getBaseUrl u), sv2Url (getBaseUrl u), ijUrl (getBaseUrl u),
       irUrl (getBaseUrl u), sv1Url (beforeQuery u), ijUrl (beforeQuery u),
       irUrl (beforeQuery u)] ∧
    (fetchLiveMetadata env (some u)).1 =
      firstPresent
        [(fetchShoutcastV1 env (getBaseUrl u)).1,
         (fetchShoutcastV2 env (getBaseUrl u)).1,
         (fetchIcecastJson env (getBaseUrl u)).1,
         (fetchIcecastRaw env (getBaseUrl u)).1,
         (fetchShoutcastV1 env (beforeQuery u)).1,
         (fetchIcecastJson env (beforeQuery u)).1,
         (fetchIcecastRaw env (beforeQuery u)).1] := by
  rw [fetchLiveMetadata_some_eq env u h]
  exact ⟨rfl, rfl⟩

/-- C1 witness: on a network that rejects everything, the seven requests
are still issued and the result is absent. -/
theorem fetchLiveMetadata_priority_witness :
    strJ ("http://host.com/x") ≠ [] ∧
    ((fetchLiveMetadata (fun _ => none) (some (strJ ("http://host.com/x")))).2).length = 7 ∧
    (fetchLiveMetadata (fun _ => none) (some (strJ ("http://host.com/x")))).1 = none := by
  have hp := fetchLiveMetadata_priority (fun _ => none) (strJ ("http://host.com/x"))
    (by decide)
  refine ⟨by decide, ?_, ?_⟩
  · rw [hp.1]; rfl
  · rw [hp.2]; rfl

/-- C8: no probe throws — a network error (rejected fetch), a non-2xx
status, a JSON parse failure, a regex non-match, or an extraction that
finds no usable field each yield absent — and when every endpoint answers
with a failing status, `fetchLiveMetadata` yields absent for every input
(its own try/catch never surfaces an exception; in this total model the
orchestrator is a function into `Option`). -/
theorem probes_never_throw :
    (∀ (env : NetEnv) (base : JStr), env (sv1Url base) = none →
      (fetchShoutcastV1 env base).1 = none) ∧
    (∀ (env : NetEnv) (base : JStr), env (sv2Url base) = none →
      (fetchShoutcastV2 env base).1 = none) ∧
    (∀ (env : NetEnv) (base : JStr), env (ijUrl base) = none →
      (fetchIcecastJson env base).1 = none) ∧
    (∀ (env : NetEnv) (base : JStr), env (irUrl base) = none →
      (fetchIcecastRaw env base).1 = none) ∧
    (∀ (env : NetEnv) (base : JStr) (r : HttpResponse),
      env (sv1Url base) = some r → r.ok = false →
      (fetchShoutcastV1 env base).1 = none) ∧
    (∀ (env : NetEnv) (base : JStr) (r : HttpResponse),
      env (sv2Url base) = some r → r.ok = false →
      (fetchShoutcastV2 env base).1 = none) ∧
    (∀ (env : NetEnv) (base : JStr) (r : HttpResponse),
      env (ijUrl base) = some r → r.ok = false →
      (fetchIcecastJson env base).1 = none) ∧
    (∀ (env : NetEnv) (base : JStr) (r : HttpResponse),
      env (irUrl base) = some r → r.ok = false →
      (fetchIcecastRaw env base).1 = none) ∧
    (∀ (env : NetEnv) (base : JStr) (r : HttpResponse),
      env (sv2Url base) = some r → r.json = none →
      (fetchShoutcastV2 env base).1 = none) ∧
    (∀ (env : NetEnv) (base : JStr) (r : HttpResponse),
      env (ijUrl base) = some r → r.json = none →
      (fetchIcecastJson env base).1 = none) ∧
    (∀ (env : NetEnv) (base : JStr) (r : HttpResponse),
      env (sv1Url base) = some r → extract7 r.body = none →
      (fetchShoutcastV1 env base).1 = none) ∧
    (∀ (env : NetEnv) (base : JStr) (r : HttpResponse),
      env (irUrl base) = some r → rawSearch r.body = none →
      (fetchIcecastRaw env base).1 = none) ∧
    (∀ (env : NetEnv) (base : JStr) (r : HttpResponse) (data : JValue),
      env (ijUrl base) = some r → r.json = some data →
      icecastJsonExtract data = .ok none →
      (fetchIcecastJson env base).1 = none) ∧
    (∀ (env : NetEnv) (base : JStr) (r : HttpResponse) (data : JValue),
      env (sv2Url base) = some r → r.json = some data →
      shoutcastV2Extract data = .ok none →
      (fetchShoutcastV2 env base).1 = none) ∧
    (∀ (env : NetEnv) (u : Option JStr),
      (∀ url, ∃ r, env url = some r ∧ r.ok = false) →
      (fetchLiveMetadata env u).1 = none) := by
  refine ⟨?_, ?_, ?_, ?_, ?_, ?_, ?_, ?_, ?_, ?_, ?_, ?_, ?_, ?_, ?_⟩
  · intro env base henv; simp [fetchShoutcastV1, henv]
  · intro env base henv; simp [fetchShoutcastV2, henv]
  · intro env base henv; simp [fetchIcecastJson, henv]
  · intro env base henv; simp [fetchIcecastRaw, henv]
  · intro env base r henv hok; simp [fetchShoutcastV1, henv, hok]
  · intro env base r henv hok; simp [fetchShoutcastV2, henv, hok]
  · intro env base r henv hok; simp [fetchIcecastJson, henv, hok]
  · intro env base r henv hok; simp [fetchIcecastRaw, henv, hok]
  · intro env base r henv hjson
    cases hok : r.ok <;> simp [fetchShoutcastV2, henv, hok, hjson]
  · intro env base r henv hjson
    cases hok : r.ok <;> simp [fetchIcecastJson, henv, hok, hjson]
  · intro env base r henv hex
    cases hok : r.ok <;> simp [fetchShoutcastV1, henv, hok, hex]
  · intro env base r henv hex
    cases hok : r.ok <;> simp [fetchIcecastRaw, henv, hok, hex]
  · intro env base r data henv hjson hex
    cases hok : r.ok <;> simp [fetchIcecastJson, henv, hok, hjson, hex]
  · intro env base r data henv hjson hex
    cases hok : r.ok <;> simp [fetchShoutcastV2, henv, hok, hjson, hex]
  · intro env u hall
    cases u with
    | none => rfl
    | some v =>
        by_cases hv : v = []
        · simp [fetchLiveMetadata, hv]
        · obtain ⟨r1, hr1, ho1⟩ := hall (sv1Url (getBaseUrl v))
          obtain ⟨r2, hr2, ho2⟩ := hall (sv2Url (getBaseUrl v))
          obtain ⟨r3, hr3, ho3⟩ := hall (ijUrl (getBaseUrl v))
          obtain ⟨r4, hr4, ho4⟩ := hall (irUrl (getBaseUrl v))
          obtain ⟨r5, hr5, ho5⟩ := hall (sv1Url (beforeQuery v))
          obtain ⟨r6, hr6, ho6⟩ := hall (ijUrl (beforeQuery v))
          obtain ⟨r7, hr7, ho7⟩ := hall (irUrl (beforeQuery v))
          rw [fetchLiveMetadata_some_eq env v hv]
          simp [fetchShoutcastV1, fetchShoutcastV2, fetchIcecastJson,
            fetchIcecastRaw, hr1, ho1, hr2, ho2, hr3, ho3, hr4, ho4,
            hr5, ho5, hr6, ho6, hr7, ho7, firstPresent]

/-- C8 witness: with every endpoint answering HTTP 404 (a non-ok status),
resolution yields absent. -/
theorem probes_never_throw_witness :
    (fetchLiveMetadata (fun _ => some ⟨false, [], none⟩)
      (some (strJ ("http://host.com/9020/stream")))).1 = none ∧
    (fetchShoutcastV1 (fun _ => some ⟨false, [], none⟩)
      (strJ ("http://host.com"))).1 = none :=
  ⟨(probes_never_throw.2.2.2.2.2.2.2.2.2.2.2.2.2.2)
      (fun _ => some ⟨false, [], none⟩)
      (some (strJ ("http://host.com/9020/stream")))
      (fun _ => ⟨⟨false, [], none⟩, rfl, rfl⟩),
    probes_never_throw.2.2.2.2.1
      (fun _ => some ⟨false, [], none⟩) (strJ ("http://host.com"))
      ⟨false, [], none⟩ rfl rfl⟩

/-- C9: a `null` or empty stream URL resolves to absent with an empty
request trace — no network call is issued. -/
theorem fetchLiveMetadata_empty_input (env : NetEnv) :
    fetchLiveMetadata env none = (none, []) ∧
    fetchLiveMetadata env (some []) = (none, []) :=
  ⟨rfl, rfl⟩

/-- C10: `fetchLiveMetadata` never returns the empty string — its result is
either absent or a non-empty string, because the aggregator's filter keeps
only truthy (non-empty) fulfilled values. -/
theorem fetchLiveMetadata_never_empty (env : NetEnv) (streamUrl : Option JStr) :
    (fetchLiveMetadata env streamUrl).1 = none ∨
    ∃ v, (fetchLiveMetadata env streamUrl).1 = some v ∧ v ≠ [] := by
  cases streamUrl with
  | none => left; rfl
  | some u =>
      by_cases hu : u = []
      · left; simp [fetchLiveMetadata, hu]
      · rw [fetchLiveMetadata_some_eq env u hu]
        exact firstPresent_spec _
